import Mathlib

/-!
# Verification of the dedupy transaction-report engine

Shallow embedding of `src/lib.rs` (library pipeline: `Memory`, `RefSale`,
`Trx`/`Adjustment`/`WithSku`, `Sale`, `Report::parse`, `handle_punct`) and of
`src/main.rs` (binary pipeline: `RefSale`, `Bucket`, `parse_report`).

Machine integers are modelled as `Int`/`Nat` with explicit bounds where the
source's behaviour depends on them (`i64::checked_div`, `str::parse`).
Strings are modelled as `List Char`; Rust `&str` comparison is byte-wise
lexicographic, which for UTF-8 coincides with the codepoint-wise
lexicographic order used here.
-/

/-- A CSV field (the text between delimiters), as a list of characters. -/
abbrev Fld := List Char

/-- A CSV record: one row of the input, as a list of fields. -/
abbrev Row := List Fld

/-- Modelled from the spec: the external `seahash` crate's `hash` function is
"a 64-bit (or equivalent wide, non-cryptographic) hash of … byte content"
whose only stated invariant is that identical bytes always produce the same
value.  It is modelled by an executable 64-bit polynomial content hash;
every claim below depends only on the hash being a function of its input
bytes, never on particular hash values. -/
def hashBytes (s : List Char) : Nat :=
  s.foldl (fun h c => (h * 31 + c.toNat) % 2 ^ 64) 5381

/-- `csv::StringRecord::as_slice`: the record's fields concatenated, with
delimiters and quoting removed. -/
def asSlice (r : Row) : Fld := r.flatten

/-- The raw byte content of a record none of whose fields needs quoting:
the fields joined by the comma delimiter. -/
def rawRowBytes : Row → Fld
  | [] => []
  | [f] => f
  | f :: rest => f ++ ',' :: rawRowBytes rest

/-- `i64::MIN`. -/
def I64MIN : Int := -(2 ^ 63)

/-- `i64::MAX`. -/
def I64MAX : Int := 2 ^ 63 - 1

/-- `u64::MAX`. -/
def U64MAX : Nat := 2 ^ 64 - 1

/-- Value of an all-digit string, `none` if any character is not `0`-`9`.
(An empty list yields `some 0`; callers reject empty input separately.) -/
def digitsVal (s : List Char) : Option Nat :=
  s.foldlM (fun acc c => if c.isDigit then some (acc * 10 + (c.toNat - 48)) else none) 0

/-- Rust `str::parse::<i64>`: optional sign, then one or more ASCII digits;
fails on anything else, on the empty string, and on values outside the
`i64` range. -/
def parseI64 : List Char → Option Int
  | [] => none
  | '+' :: rest =>
    if rest.isEmpty then none
    else (digitsVal rest).bind fun n => if (n : Int) ≤ I64MAX then some (n : Int) else none
  | '-' :: rest =>
    if rest.isEmpty then none
    else (digitsVal rest).bind fun n => if I64MIN ≤ -(n : Int) then some (-(n : Int)) else none
  | s => (digitsVal s).bind fun n => if (n : Int) ≤ I64MAX then some (n : Int) else none

/-- Rust `str::parse::<u64>`: optional `+`, then one or more ASCII digits;
fails otherwise and on values above `u64::MAX`. -/
def parseU64 : List Char → Option Nat
  | [] => none
  | '+' :: rest =>
    if rest.isEmpty then none
    else (digitsVal rest).bind fun n => if n ≤ U64MAX then some n else none
  | s => (digitsVal s).bind fun n => if n ≤ U64MAX then some n else none

/-- `total.replace(['.', ','], "")`: removes every period and comma. -/
def stripPunct (s : List Char) : List Char :=
  s.filter fun c => !(c = '.' || c = ',')

/-- Rust `str::split(sep)`: the list of segments between occurrences of
`sep` (always at least one segment; `""` splits to `[""]`). -/
def splitChar (sep : Char) : List Char → List (List Char)
  | [] => [[]]
  | c :: rest =>
    if c = sep then [] :: splitChar sep rest
    else
      match splitChar sep rest with
      | [] => [[c]]
      | seg :: segs => (c :: seg) :: segs

/-- `handle_punct` from `src/lib.rs`: looks at the segment after the first
`.` (Rust `total.split('.').nth(1)`); scales the punctuation-stripped
integer by 10 when that segment has exactly 1 character, by 1 when it has
exactly 2, fails otherwise; with no `.` present, scales by 100. -/
def handle_punct (total : List Char) : Option Int :=
  match (splitChar '.' total)[1]? with
  | some dec =>
    match dec.length with
    | 1 => (parseI64 (stripPunct total)).map (· * 10)
    | 2 => parseI64 (stripPunct total)
    | _ => none
  | none => (parseI64 (stripPunct total)).map (· * 100)

/-! ## The fingerprint store (`Memory`, src/lib.rs lines 14-49)

The durable store behind a `Memory` is the contents of its backing file:
`none` when the file does not exist, otherwise the list of CSV records in
the file (each a single field, since the fingerprints are written one per
line with no commas). -/

/-- The durable fingerprint store: `none` = file absent, `some lines` =
the file's records. -/
abbrev Store := Option (List Fld)

/-- The in-memory state of `Memory`: its `HashSet<u64>`, modelled as a
duplicate-free list whose order stands for the set's (unspecified)
iteration order. -/
structure Memory where
  set : List Nat
deriving Repr, DecidableEq

/-- `HashSet::insert`: returns the new set and whether the value was newly
inserted (`true` = was not present before). -/
def insertHash (s : List Nat) (h : Nat) : List Nat × Bool :=
  if h ∈ s then (s, false) else (s ++ [h], true)

/-- `Memory::memorize`: hashes the given text and inserts the hash,
returning whether it was newly inserted. -/
def Memory.memorize (m : Memory) (s : Fld) : Memory × Bool :=
  let (set2, fresh) := insertHash m.set (hashBytes s)
  (⟨set2⟩, fresh)

/-- `Memory::new`: reads the store with `csv::Reader::from_path` (default
configuration, so `has_headers` is true and the FIRST record is consumed
as a header), deserializes each remaining record as `u64`, and on ANY
failure — file absent, or any record not parsing as `u64` —
`unwrap_or_default()` yields the empty set.  The `eyre::Result` return is
always `Ok`. -/
def Memory.new (store : Store) : Except Unit Memory :=
  .ok ⟨match store with
    | none => []
    | some lines =>
      match (lines.drop 1).mapM parseU64 with
      | some fps => fps
      | none => []⟩

/-- `Memory::write`: rewrites the store file with one record per
fingerprint, in the set's iteration order. -/
def Memory.write (m : Memory) : Store :=
  some (m.set.map fun h => Nat.toDigits 10 h)

/-! ## Row decoding (`RefSale`, src/lib.rs lines 51-73) -/

/-- `RefSale` from `src/lib.rs`: the borrowed view of one data row after
serde deserialization (`quantity` already parsed to `i64`). -/
structure RefSale where
  kind : Fld
  sku : Option Fld
  total : Fld
  quantity : Int
  description : Fld
deriving Repr, DecidableEq

/-- Header-based field lookup: the value at the first header position whose
name is one of `names` (a serde field name plus its aliases); `none` when
no header matches or the record is too short. -/
def lookupField (hdr r : Row) (names : List Fld) : Option Fld :=
  match hdr.findIdx? (fun h => names.contains h) with
  | some i => r[i]?
  | none => none

/-- `record.deserialize::<RefSale>(header)`:
`kind` matches header `kind` or alias `type` and defaults to `""`;
`sku` is an `Option` (absent header or empty field gives `None`);
`total` and `description` are required;
`quantity` defaults to 0 when absent or empty, otherwise parses as `i64`
(`deserialize_quantity`). -/
def deserializeRefSale (hdr r : Row) : Option RefSale := do
  let kind := (lookupField hdr r ["kind".data, "type".data]).getD []
  let sku : Option Fld :=
    match lookupField hdr r ["sku".data] with
    | none => none
    | some [] => none
    | some v => some v
  let total ← lookupField hdr r ["total".data]
  let quantity ←
    match lookupField hdr r ["quantity".data] with
    | none => some (0 : Int)
    | some [] => some (0 : Int)
    | some v => parseI64 v
  let description ← lookupField hdr r ["description".data]
  pure ⟨kind, sku, total, quantity, description⟩

/-! ## Classification (`Trx`, `Adjustment`, `WithSku`, src/lib.rs lines 204-270) -/

/-- `Adjustment`: consolidation key for rows without a SKU. -/
structure Adjustment where
  kind : Fld
  description : Fld
deriving Repr, DecidableEq

/-- `WithSku`: consolidation key for rows with a SKU. -/
structure WithSku where
  kind : Fld
  sku : Fld
  cents : Int
  description : Fld
deriving Repr, DecidableEq

/-- `Trx`: a classified transaction. -/
inductive Trx where
  | adjustment (a : Adjustment)
  | withSku (s : WithSku)
deriving Repr, DecidableEq

/-- `i64::checked_div`: `none` when the divisor is zero or when the exact
truncated quotient overflows the `i64` range. -/
def checkedDiv (a b : Int) : Option Int :=
  if b = 0 then none
  else if I64MIN ≤ a.tdiv b ∧ a.tdiv b ≤ I64MAX then some (a.tdiv b) else none

/-- The `cents` computation in `WithSku::try_from`:
`total.checked_div(quantity).unwrap_or(total)`. -/
def withSkuCents (total quantity : Int) : Int :=
  (checkedDiv total quantity).getD total

/-- `Trx::try_from(RefSale)`: a present SKU gives `WithSku` (re-parsing the
total with `handle_punct` and computing per-unit cents), an absent SKU
gives `Adjustment`. -/
def Trx.tryFrom (v : RefSale) : Option Trx :=
  match v.sku with
  | some sk =>
    (handle_punct v.total).map fun total =>
      .withSku ⟨v.kind, sk, withSkuCents total v.quantity, v.description⟩
  | none => some (.adjustment ⟨v.kind, v.description⟩)

/-! ## Output rows (`Sale`, src/lib.rs lines 75-129) -/

/-- `Sale`: one finalized output row (serialized by the sink as
Type, SKU, Description, Quantity, Total). -/
structure Sale where
  kind : Fld
  sku : Fld
  description : Fld
  quantity : Int
  cents : Int
deriving Repr, DecidableEq

/-- `Sale::new`: an `Adjustment` key with accumulated value `i` gets the
sentinel SKU `"FBATF"`, quantity `-1` when `i < 0` and `+1` otherwise, and
cents `i`; a `WithSku` key gets quantity `i` and cents `unit cents * i`. -/
def Sale.new (t : Trx) (i : Int) : Sale :=
  match t with
  | .adjustment a =>
    { kind := a.kind
      sku := "FBATF".data
      description := a.description
      quantity := if i < 0 then -1 else 1
      cents := i }
  | .withSku s =>
    { kind := s.kind
      sku := s.sku
      description := s.description
      quantity := i
      cents := s.cents * i }

/-! ## Output ordering (src/lib.rs line 191)

`buffer.sort_unstable_by_key(|s| (s.kind.clone(), s.description.clone()))`
sorts by the pair `(kind, description)` only; Rust `String` order is
byte-wise lexicographic.  Rust's unstable sort runs as an insertion sort
(which is stable) on slices as short as every buffer appearing below; the
sort is modelled by the stable `List.mergeSort` with the same comparison
key. -/

/-- Byte-lexicographic three-way comparison of two strings
(Rust `Ord` for `String`). -/
def fldCmp : Fld → Fld → Ordering
  | [], [] => .eq
  | [], _ :: _ => .lt
  | _ :: _, [] => .gt
  | a :: x, b :: y => if a < b then .lt else if b < a then .gt else fldCmp x y

/-- The sort key of `sort_unstable_by_key`: the pair
`(kind, description)`, compared lexicographically (Rust tuple `Ord`). -/
def saleKeyCmp (s t : Sale) : Ordering :=
  match fldCmp s.kind t.kind with
  | .eq => fldCmp s.description t.description
  | o => o

/-- `≤` on sales induced by the sort key. -/
def saleLEP (s t : Sale) : Prop := saleKeyCmp s t ≠ .gt

instance : DecidableRel saleLEP := fun s t =>
  inferInstanceAs (Decidable (saleKeyCmp s t ≠ .gt))

/-- The final sort of the output buffer, modelled by a stable insertion
sort with the source's comparison key (Rust's unstable sort runs as an
insertion sort on slices of the sizes occurring below). -/
def sortSales (l : List Sale) : List Sale := List.insertionSort saleLEP l

/-! ## The run pipeline (`Report::parse`, src/lib.rs lines 134-201) -/

/-- The mutable state of the row loop: the two memories and the two
aggregation maps.  A `HashMap` is modelled as an association list in
insertion order; the order stands for the map's (unspecified) iteration
order, which the claims quantify over where it matters. -/
structure RunState where
  recmem : Memory
  skumem : Memory
  adjMap : List (Adjustment × Int)
  skuMap : List (WithSku × Int)
deriving Repr, DecidableEq

/-- `map.entry(k).and_modify(f).or_insert(dflt)`. -/
def updateEntry [DecidableEq K] (m : List (K × Int)) (k : K) (f : Int → Int)
    (dflt : Int) : List (K × Int) :=
  if m.any fun p => p.1 = k then
    m.map fun p => if p.1 = k then (p.1, f p.2) else p
  else m ++ [(k, dflt)]

/-- One iteration of the row loop of `Report::parse`.  The record's
fingerprint is always inserted into `recmem`; the body runs only when
`memorize` returns `false`, i.e. when the fingerprint was ALREADY present
(`if !recmem.memorize(r.as_slice())`).  In the body, a decode or amount
failure aborts the whole run (`none`); an `Adjustment` row enters the
adjustment map with `or_insert(qt)` and `and_modify(+= cents)`; a
`WithSku` row records its SKU in `skumem` and enters the SKU map with
`or_insert(qt)` and `and_modify(+= qt)`. -/
def processRecord (hdr : Row) (st : RunState) (r : Row) : Option RunState :=
  let (recmem2, fresh) := st.recmem.memorize (asSlice r)
  let st := { st with recmem := recmem2 }
  if fresh then some st
  else do
    let sale ← deserializeRefSale hdr r
    let qt := sale.quantity
    let cents ← handle_punct sale.total
    match ← Trx.tryFrom sale with
    | .adjustment a =>
      pure { st with adjMap := updateEntry st.adjMap a (· + cents) qt }
    | .withSku s =>
      let (skumem2, _) := st.skumem.memorize s.sku
      pure { st with
        skumem := skumem2
        skuMap := updateEntry st.skuMap s (· + qt) qt }

/-- The observable outcome of one `Report::parse` run: the contents of the
two fingerprint store files when the call returns, the rows written to
`output.xlsx` (`none` when the workbook was not (re)written), and whether
the call returned `Ok`. -/
structure RunOutcome where
  recStore : Store
  skuStore : Store
  saved : Option (List Sale)
  ok : Bool
deriving Repr, DecidableEq

/-- The tail of `Report::parse` after the row loop, in source order:
`recmem.write()`, `skumem.write()`, build the buffer (adjustment entries
first, then SKU entries), sort it, and save the workbook.  `sinkOk` models
whether `wb.save("output.xlsx")` succeeds; the memories are persisted
BEFORE the save is attempted. -/
def finishRun (st : RunState) (sinkOk : Bool) : RunOutcome :=
  let recStore := st.recmem.write
  let skuStore := st.skumem.write
  let buffer :=
    st.adjMap.map (fun p => Sale.new (.adjustment p.1) p.2) ++
    st.skuMap.map (fun p => Sale.new (.withSku p.1) p.2)
  let sorted := sortSales buffer
  if sinkOk then
    { recStore := recStore, skuStore := skuStore, saved := some sorted, ok := true }
  else
    { recStore := recStore, skuStore := skuStore, saved := none, ok := false }

/-- `Report::parse`: skip the first 7 records, take the next record as the
header, run the row loop over the rest, then persist the memories and
write the output.  `records` is the CSV-parsed content of the input file;
`recStore`/`skuStore` are the contents of the files `"memory"` and
`"sku_memory"` when the run starts.  A decode or amount failure aborts
the run before anything is written (the `?` returns leave both store
files untouched). -/
def Report.parse (records : List Row) (recStore skuStore : Store)
    (sinkOk : Bool) : RunOutcome :=
  match Memory.new recStore, Memory.new skuStore with
  | .error _, _ =>
    { recStore := recStore, skuStore := skuStore, saved := none, ok := false }
  | _, .error _ =>
    { recStore := recStore, skuStore := skuStore, saved := none, ok := false }
  | .ok recmem0, .ok skumem0 =>
    let st0 : RunState := ⟨recmem0, skumem0, [], []⟩
    match records.drop 7 with
    | [] => finishRun st0 sinkOk
    | hdr :: data =>
      match data.foldlM (processRecord hdr) st0 with
      | none =>
        { recStore := recStore, skuStore := skuStore, saved := none, ok := false }
      | some st => finishRun st sinkOk

/-! ## The binary pipeline (`src/main.rs`)

`main.rs` carries its own near-duplicate of the engine: `RefSale` with all
fields required, a `Bucket` aggregating by linear scan, and `parse_report`
which asserts `bucket.seen` at end of file before writing. -/

/-- `RefSale` from `src/main.rs`: every field is a required `&str`. -/
structure Main.RefSale where
  dateTime : Fld
  kind : Fld
  sku : Fld
  total : Fld
  quantity : Fld
  description : Fld
deriving Repr, DecidableEq

/-- `record.deserialize::<RefSale>(header)` for the binary's `RefSale`:
`date_time` matches header `date_time` or alias `date/time`, `kind`
matches `kind` or alias `type`; no field has a default, so any missing
field fails the decode. -/
def Main.deserializeRefSale (hdr r : Row) : Option Main.RefSale := do
  let dateTime ← lookupField hdr r ["date_time".data, "date/time".data]
  let kind ← lookupField hdr r ["kind".data, "type".data]
  let sku ← lookupField hdr r ["sku".data]
  let total ← lookupField hdr r ["total".data]
  let quantity ← lookupField hdr r ["quantity".data]
  let description ← lookupField hdr r ["description".data]
  pure ⟨dateTime, kind, sku, total, quantity, description⟩

/-- `RefSale::total_cents` (main.rs): strip `.` and `,` and parse as `i64`
— note: no decimal-scale inference in the binary. -/
def Main.RefSale.totalCents (s : Main.RefSale) : Option Int :=
  parseI64 (stripPunct s.total)

/-- `RefSale::quantity` (main.rs): empty string is 0, otherwise `i64`. -/
def Main.RefSale.quantityVal (s : Main.RefSale) : Option Int :=
  if s.quantity.isEmpty then some 0 else parseI64 s.quantity

/-- `RefSale::unit_cents` (main.rs): total cents when the quantity is 0,
otherwise the truncated quotient. -/
def Main.RefSale.unitCents (s : Main.RefSale) : Option Int := do
  let q ← s.quantityVal
  if q = 0 then s.totalCents
  else do
    let t ← s.totalCents
    pure (t.tdiv q)

/-- `Sale` from `src/main.rs`. -/
structure Main.Sale where
  sku : Fld
  unitCents : Int
  quantity : Int
  description : Fld
  kind : Fld
deriving Repr, DecidableEq

/-- `Bucket` from `src/main.rs`. -/
structure Main.Bucket where
  sales : List Main.Sale
  oldest : Option Fld
  newest : Option Fld
  seen : Bool
  originalPath : Fld
deriving Repr, DecidableEq

/-- The linear scan inside `Bucket::add`: bump the quantity of the first
sale matching on (sku, kind, description, unit cents); report whether a
match was found. -/
def Main.addToSales (sales : List Main.Sale) (s : Main.RefSale) (u q : Int) :
    List Main.Sale × Bool :=
  match sales with
  | [] => ([], false)
  | sl :: rest =>
    if sl.sku = s.sku ∧ sl.kind = s.kind ∧ sl.description = s.description ∧
        sl.unitCents = u then
      ({ sl with quantity := sl.quantity + q } :: rest, true)
    else
      let (r2, found) := Main.addToSales rest s u q
      (sl :: r2, found)

/-- `Bucket::add`: sets `oldest` to the row's date, then either bumps a
matching sale or pushes a new one; a failing `unit_cents`/`quantity`
aborts (`?`). -/
def Main.Bucket.add (b : Main.Bucket) (s : Main.RefSale) : Option Main.Bucket := do
  let b := { b with oldest := some s.dateTime }
  let u ← s.unitCents
  let q ← s.quantityVal
  let (sales2, found) := Main.addToSales b.sales s u q
  if found then pure { b with sales := sales2 }
  else pure { b with sales := b.sales ++ [⟨s.sku, u, q, s.description, s.kind⟩] }

/-- `Bucket::set_newest`: only the first record of the file sets `newest`
and marks the bucket as seen. -/
def Main.Bucket.setNewest (b : Main.Bucket) (date : Fld) : Main.Bucket :=
  if !b.seen then { b with newest := some date, seen := true } else b

/-- The rows `Bucket::write` serializes: each sale's `unit_cents` is
multiplied by its quantity when the quantity is nonzero. -/
def Main.Bucket.writeRows (b : Main.Bucket) : List Main.Sale :=
  b.sales.map fun sl =>
    if sl.quantity ≠ 0 then { sl with unitCents := sl.unitCents * sl.quantity } else sl

/-- The observable outcome of `parse_report` (main.rs): the run can bail
with "No header found", fail on a row decode, PANIC on the end-of-file
`assert!` sanity checks (src/main.rs lines 242-244), or write the rows. -/
inductive Main.Outcome where
  | noHeader
  | decodeFailed
  | assertFailed
  | wrote (rows : List Main.Sale) (oldest newest : Fld)
deriving Repr, DecidableEq

/-- The data loop of `parse_report`: for each record, decode, `add`,
`set_newest`, and on the last record (`peek().is_none()`) `set_oldest`;
at the end of file the `assert!(bucket.seen)` / `oldest` / `newest`
checks run before `bucket.write()`. -/
def Main.runData (hdr : Row) (b : Main.Bucket) : List Row → Main.Outcome
  | [] =>
    if b.seen ∧ b.oldest.isSome ∧ b.newest.isSome then
      .wrote b.writeRows (b.oldest.getD []) (b.newest.getD [])
    else .assertFailed
  | r :: rest =>
    match Main.deserializeRefSale hdr r with
    | none => .decodeFailed
    | some s =>
      match b.add s with
      | none => .decodeFailed
      | some b1 =>
        let b2 := b1.setNewest s.dateTime
        let b3 := if rest.isEmpty then { b2 with oldest := some s.dateTime } else b2
        Main.runData hdr b3 rest

/-- `parse_report` (main.rs): skip 7 records, take the next as header
(bailing when absent), then run the data loop on the rest. -/
def Main.parseReport (records : List Row) : Main.Outcome :=
  match records.drop 7 with
  | [] => .noHeader
  | hdr :: data => Main.runData hdr ⟨[], none, none, false, []⟩ data

/-! ## Spec-side readings of `parse_cents`

Two definitions written from the words of spec §4.1, to be compared with
the source's `handle_punct`: the claim's reading (scale inferred from the
characters after the LAST decimal separator) and the amended reading
(scale inferred from the segment between the FIRST `.` and the next `.`
or the end of the string). -/

/-- The claim's reading of `parse_cents`: "infers the decimal scale from
the digits following the last decimal separator: exactly 1 trailing
decimal digit multiplies the stripped integer by 10, exactly 2 applies no
scaling, 0 digits multiplies by 100, and any other count fails". -/
def parse_cents_claim (s : List Char) : Option Int :=
  match (if '.' ∈ s then (s.reverse.takeWhile (fun c => c != '.')).length else 0) with
  | 0 => (parseI64 (stripPunct s)).map (· * 100)
  | 1 => (parseI64 (stripPunct s)).map (· * 10)
  | 2 => parseI64 (stripPunct s)
  | _ => none

/-- The amended reading: the scale comes from the number of characters
strictly between the FIRST `.` and the following `.` (or the end); a
string with no `.` at all is scaled by 100; any other count — including
zero, as in `"1."` — fails. -/
def parse_cents_first (s : List Char) : Option Int :=
  if '.' ∈ s then
    match (((s.dropWhile (fun c => c != '.')).tail).takeWhile (fun c => c != '.')).length with
    | 1 => (parseI64 (stripPunct s)).map (· * 10)
    | 2 => parseI64 (stripPunct s)
    | _ => none
  else (parseI64 (stripPunct s)).map (· * 100)

/-- The pair `(kind, description)` of an output row — the full extent of
the information the final sort's comparator looks at. -/
def salePair (s : Sale) : Fld × Fld := (s.kind, s.description)

/-! ## Concrete inputs used by the evidence theorems -/

/-- Seven arbitrary preamble records ("The first 7 records of the report
are trash"). -/
def preambleRows : List Row := [[['p']], [['p']], [['p']], [['p']], [['p']], [['p']], [['p']]]

/-- A header row naming the five columns (using the `type` alias). -/
def headerRow : Row := ["type".data, "sku".data, "total".data, "quantity".data, "description".data]

/-- An identified (SKU-bearing) data row: 2 units totalling $1.00. -/
def orderRow1 : Row := ["Order".data, "SKU1".data, "1.00".data, "2".data, "desc".data]

/-- As `orderRow1` but for SKU2 — same kind and description. -/
def orderRow2 : Row := ["Order".data, "SKU2".data, "1.00".data, "2".data, "desc".data]

/-- An adjustment data row (empty SKU, empty quantity) of +150 cents. -/
def adjRow1 : Row := ["Order".data, [], "1.50".data, [], "dA".data]

/-- An adjustment data row with the same (kind, description) key as
`adjRow1`, of −500 cents. -/
def adjRow2 : Row := ["Order".data, [], "-5.00".data, [], "dA".data]

/-- A store whose set, as loaded by `Memory::new` (which consumes the
first line as a CSV header), contains exactly the fingerprints of the
given rows. -/
def storeSeeding (rows : List Row) : Store :=
  some (['0'] :: rows.map fun r => Nat.toDigits 10 (hashBytes (asSlice r)))

/-- Two output rows sharing the sort key (kind, description) but with
different SKUs. -/
def saleA : Sale := ⟨"Order".data, "SKU1".data, "desc".data, 2, 100⟩

/-- See `saleA`. -/
def saleB : Sale := ⟨"Order".data, "SKU2".data, "desc".data, 2, 100⟩

/-- Two output rows with distinct sort keys. -/
def saleC : Sale := ⟨"Order".data, "SKU1".data, "da".data, 2, 100⟩

/-- See `saleC`. -/
def saleD : Sale := ⟨"Refund".data, "SKU2".data, "db".data, -1, -50⟩



/-! # Theorems -/

/-- C10: every input file with the 7-row preamble and a header row but
zero data rows drives `parse_report` (main.rs) into the failing
end-of-file `assert!(bucket.seen)` and panics, rather than returning an
error or an empty result. -/
theorem parseReport_no_data_rows_panics (pre : List Row) (hdr : Row)
    (h : pre.length = 7) :
    Main.parseReport (pre ++ [hdr]) = .assertFailed := by
  unfold Main.parseReport
  rw [List.drop_left' h]
  rfl

/-- Witness: `parseReport_no_data_rows_panics` at a concrete file. -/
theorem parseReport_no_data_rows_panics_witness :
    Main.parseReport (preambleRows ++ [headerRow]) = .assertFailed :=
  parseReport_no_data_rows_panics preambleRows headerRow (by decide)

/-- C1 (evidence of the code bug): with both stores empty, a run over a
single fresh data row decodes and folds NOTHING — `Report::parse` runs
the row body only when `memorize` returns `false`, i.e. only for rows
whose fingerprint is already present — yet the fresh row's fingerprint is
still queued and persisted: the run succeeds with an empty output and the
row's fingerprint in the store. -/
theorem report_parse_skips_fresh_row :
    Report.parse (preambleRows ++ [headerRow, orderRow1]) none none true =
      { recStore := some [Nat.toDigits 10 (hashBytes (asSlice orderRow1))]
        skuStore := some []
        saved := some []
        ok := true } := by decide

/-- C2 (evidence of the code bug): when the workbook save fails, the
fingerprint store has ALREADY been rewritten — `recmem.write()` and
`skumem.write()` run before `wb.save("output.xlsx")` — so a store that
was absent (empty set) before the run holds the row's fingerprint after
the failed run. -/
theorem report_parse_persists_store_despite_sink_failure :
    Report.parse (preambleRows ++ [headerRow, orderRow1]) none none false =
      { recStore := some [Nat.toDigits 10 (hashBytes (asSlice orderRow1))]
        skuStore := some []
        saved := none
        ok := false } := by decide

/-- C3 (evidence of the code bug): running the same two-data-row file
twice with the stores persisted between runs produces an EMPTY output on
the first run (every fresh row is skipped) and a NONEMPTY aggregation on
the second run (a fingerprint that survived the store round-trip makes
`memorize` return `false`, which is the processing branch). -/
theorem report_parse_second_run_aggregates :
    (Report.parse (preambleRows ++ [headerRow, orderRow1, orderRow2]) none none true).saved
      = some [] ∧
    (Report.parse (preambleRows ++ [headerRow, orderRow1, orderRow2])
        (Report.parse (preambleRows ++ [headerRow, orderRow1, orderRow2]) none none true).recStore
        (Report.parse (preambleRows ++ [headerRow, orderRow1, orderRow2]) none none true).skuStore
        true).saved
      = some [⟨"Order".data, "SKU2".data, "desc".data, 2, 100⟩] := by decide

/-- C4 (evidence of the code bug): two adjustment rows of +150 and −500
cents under the same (kind, description) key — processed by seeding the
store with their fingerprints — finalize to total cents −500, not −350:
the first row enters the adjustment map via `or_insert(qt)` with its
QUANTITY (0), not its cents, and only the second row's cents are added by
`and_modify`.  (The ±1 quantity and `FBATF` sentinel of `Sale::new` do
behave as claimed.) -/
theorem report_parse_adjustment_inserts_quantity :
    (Report.parse (preambleRows ++ [headerRow, adjRow1, adjRow2])
        (storeSeeding [adjRow1, adjRow2]) none true).saved
      = some [⟨"Order".data, "FBATF".data, "dA".data, -1, -500⟩] := by decide

/-- C8 (counterexample): a store that exists but cannot be deserialized
(its second line is not a `u64`) does NOT fail the run with a fatal
error: `Memory::new` returns `Ok` with the empty fingerprint set. -/
theorem memory_new_corrupt_store_counterexample :
    parseU64 ['x'] = none ∧
    (Memory.new (some [['0'], ['x']])).isOk = true ∧
    Memory.new (some [['0'], ['x']]) = .ok ⟨[]⟩ :=
  ⟨by decide, rfl, rfl⟩

/-- C8 (amended): `Memory::new` NEVER returns an error — an absent store
and an unreadable store alike — and a store that exists but fails `u64`
deserialization is treated exactly as the empty fingerprint set
(`unwrap_or_default`). -/
theorem memory_new_never_errors (store : Store) :
    (Memory.new store).isOk = true ∧
    (∀ lines, store = some lines → (lines.drop 1).mapM parseU64 = none →
      Memory.new store = .ok ⟨[]⟩) := by
  refine ⟨rfl, ?_⟩
  rintro lines rfl hfail
  have hstep : Memory.new (some lines) =
      .ok ⟨match (lines.drop 1).mapM parseU64 with
           | some fps => fps
           | none => []⟩ := rfl
  rw [hstep, hfail]

/-- Witness: `memory_new_never_errors` at a concrete corrupt store. -/
theorem memory_new_never_errors_witness :
    Memory.new (some [['a'], ['y']]) = .ok ⟨[]⟩ :=
  (memory_new_never_errors (some [['a'], ['y']])).2 _ rfl (by decide)

/-! ## C5: the decimal-scale rule of `handle_punct` -/

/-- `splitChar` always yields at least one segment. -/
theorem splitChar_ne_nil (sep : Char) (s : List Char) : splitChar sep s ≠ [] := by
  cases s with
  | nil => simp [splitChar]
  | cons c rest =>
    simp only [splitChar]
    split
    · simp
    · split <;> simp

/-- The first segment of `splitChar` is the prefix before the first
separator. -/
theorem splitChar_head (sep : Char) (s : List Char) :
    (splitChar sep s).head? = some (s.takeWhile (fun c => c != sep)) := by
  induction s with
  | nil => rfl
  | cons c rest ih =>
    by_cases h : c = sep
    · simp [splitChar, h, List.takeWhile_cons]
    · have hp : (c != sep) = true := by simp [h]
      cases hs : splitChar sep rest with
      | nil => exact absurd hs (splitChar_ne_nil sep rest)
      | cons seg segs =>
        rw [hs] at ih
        simp only [List.head?, Option.some.injEq] at ih
        simp [splitChar, h, hs, List.takeWhile_cons, hp, ih]

/-- The second segment of `splitChar` (Rust `split(sep).nth(1)`) is the
text strictly between the first separator and the next one (or the end),
and exists exactly when the separator occurs. -/
theorem splitChar_getElem1 (sep : Char) (s : List Char) :
    (splitChar sep s)[1]? =
      if sep ∈ s then
        some (((s.dropWhile (fun c => c != sep)).tail).takeWhile (fun c => c != sep))
      else none := by
  induction s with
  | nil => simp [splitChar]
  | cons c rest ih =>
    by_cases h : c = sep
    · have hhead := splitChar_head sep rest
      cases hs : splitChar sep rest with
      | nil => exact absurd hs (splitChar_ne_nil sep rest)
      | cons seg segs =>
        rw [hs] at hhead
        simp only [List.head?, Option.some.injEq] at hhead
        simp [splitChar, h, hs, List.dropWhile_cons, hhead]
    · have hp : (c != sep) = true := by simp [h]
      have hns : ¬ (sep = c) := fun he => h he.symm
      cases hs : splitChar sep rest with
      | nil => exact absurd hs (splitChar_ne_nil sep rest)
      | cons seg segs =>
        rw [hs] at ih
        simp only [List.getElem?_cons_succ] at ih
        simp [splitChar, h, hs, List.mem_cons, hns, List.dropWhile_cons, hp, ih]

/-- C5 (amended): `handle_punct` infers the decimal scale from the segment
strictly between the FIRST `.` and the following `.` or the end of the
string — 1 character gives ×10, 2 give ×1, no `.` at all gives ×100, and
any other count (including zero, as in `"1."`) fails — and the spec's
examples all hold. -/
theorem handle_punct_scale_from_first_sep :
    (∀ total, handle_punct total = parse_cents_first total) ∧
    handle_punct "1.00".data = some 100 ∧ handle_punct "1.0".data = some 100 ∧
    handle_punct "1".data = some 100 ∧ handle_punct "1,345.3".data = some 134530 ∧
    handle_punct "0.30".data = some 30 ∧ handle_punct "0.300".data = none := by
  refine ⟨?_, by decide, by decide, by decide, by decide, by decide, by decide⟩
  intro total
  unfold handle_punct parse_cents_first
  rw [splitChar_getElem1]
  by_cases h : '.' ∈ total
  · rw [if_pos h, if_pos h]
  · rw [if_neg h, if_neg h]

/-- Witness: the amended equality at a concrete amount string. -/
theorem handle_punct_scale_from_first_sep_witness :
    handle_punct "12.5".data = parse_cents_first "12.5".data :=
  handle_punct_scale_from_first_sep.1 "12.5".data

/-- C5 (counterexample): on `"1.23.4"` the code looks at the segment after
the FIRST `.` (2 characters ⇒ no scaling ⇒ 1234), while the claim's
last-separator rule sees 1 trailing digit and scales by 10 (12340). -/
theorem handle_punct_first_vs_last_sep_counterexample :
    handle_punct "1.23.4".data = some 1234 ∧
    parse_cents_claim "1.23.4".data = some 12340 ∧
    handle_punct "1.23.4".data ≠ parse_cents_claim "1.23.4".data := by decide

/-! ## C7: per-unit cents and zero/overflowing quantities -/

/-- C7 (counterexample): at total cents `i64::MIN` — reachable from the
amount string `"-92233720368547758.08"` — and quantity −1 (≠ 0), the
truncated quotient overflows `i64`, so `checked_div` is `None` and the
per-unit cents fall back to the TOTAL (−2⁶³), not the claimed
total ÷ quantity (+2⁶³). -/
theorem withSkuCents_overflow_counterexample :
    Trx.tryFrom ⟨"k".data, some "s".data, "-92233720368547758.08".data, -1, "d".data⟩ =
      some (.withSku ⟨"k".data, "s".data, I64MIN, "d".data⟩) ∧
    Int.tdiv I64MIN (-1) ≠ I64MIN := by decide

/-- C7 (amended): for `i64`-ranged total cents, the per-unit cents of
`WithSku::try_from` equal the total itself when the quantity is 0 — and
also in the single overflowing case total = `i64::MIN`, quantity = −1 —
and the truncated quotient total ÷ quantity otherwise; the computation is
a total function of its inputs (no division panic). -/
theorem withSkuCents_characterization (t q : Int)
    (ht1 : I64MIN ≤ t) (ht2 : t ≤ I64MAX) :
    withSkuCents t q =
      if q = 0 ∨ (t = I64MIN ∧ q = -1) then t else t.tdiv q := by
  unfold withSkuCents checkedDiv
  by_cases hq : q = 0
  · simp [hq]
  · by_cases hover : t = I64MIN ∧ q = -1
    · obtain ⟨h1, h2⟩ := hover
      subst h1
      subst h2
      decide
    · have hcond : ¬(q = 0 ∨ (t = I64MIN ∧ q = -1)) := by tauto
      have hin : I64MIN ≤ t.tdiv q ∧ t.tdiv q ≤ I64MAX := by
        by_cases hq1 : q = 1
        · subst hq1
          rw [Int.tdiv_one]
          exact ⟨ht1, ht2⟩
        · by_cases hqm1 : q = -1
          · have htne : t ≠ I64MIN := fun ht' => hover ⟨ht', hqm1⟩
            subst hqm1
            have hneg : t.tdiv (-1) = -t := by simp
            rw [hneg]
            simp only [I64MIN, I64MAX] at ht1 ht2 htne ⊢
            omega
          · have hna : 2 ≤ q.natAbs := by omega
            have hta : t.natAbs ≤ 2 ^ 63 := by
              simp only [I64MIN, I64MAX] at ht1 ht2
              omega
            have hnatbound : (t.tdiv q).natAbs ≤ 2 ^ 62 := by
              rw [Int.natAbs_tdiv]
              calc t.natAbs / q.natAbs ≤ t.natAbs / 2 :=
                    Nat.div_le_div_left hna (by norm_num)
                _ ≤ 2 ^ 63 / 2 := Nat.div_le_div_right hta
                _ = 2 ^ 62 := by norm_num
            simp only [I64MIN, I64MAX]
            omega
      rw [if_neg hq, if_pos hin, if_neg hcond]
      rfl

/-- Witness: `withSkuCents_characterization` at the spec's zero-quantity
example — quantity 0 and total cents 250 yield unit cents 250, with no
division error. -/
theorem withSkuCents_characterization_witness :
    withSkuCents 250 0 = 250 :=
  (withSkuCents_characterization 250 0 (by decide) (by decide)).trans (by decide)

/-! ## C9: what the fingerprint is computed over -/

/-- C9 (counterexample): the hash input is `as_slice` — the record's
fields concatenated with the delimiters dropped — not the raw row bytes:
the rows `a,bc` and `ab,c` have different raw byte content yet identical
hash input, hence identical fingerprints; and the hash input differs from
the raw bytes. -/
theorem fingerprint_input_counterexample :
    asSlice ["a".data, "bc".data] ≠ rawRowBytes ["a".data, "bc".data] ∧
    rawRowBytes ["a".data, "bc".data] ≠ rawRowBytes ["ab".data, "c".data] ∧
    hashBytes (asSlice ["a".data, "bc".data]) =
      hashBytes (asSlice ["ab".data, "c".data]) := by decide

/-- Two comma-free fields each followed by a comma and a continuation
agree only if the fields and the continuations agree. -/
theorem commaFree_append_inj (x : List Char) (u v : List Char) :
    ∀ y : List Char, ',' ∉ x → ',' ∉ y →
      x ++ ',' :: u = y ++ ',' :: v → x = y ∧ u = v := by
  induction x with
  | nil =>
    intro y hx hy h
    cases y with
    | nil => simpa using h
    | cons b ys =>
      exfalso
      simp only [List.nil_append, List.cons_append, List.cons.injEq] at h
      refine hy ?_
      rw [h.1]
      exact List.mem_cons_self _ _
  | cons a xs ih =>
    intro y hx hy h
    cases y with
    | nil =>
      exfalso
      simp only [List.cons_append, List.nil_append, List.cons.injEq] at h
      refine hx ?_
      rw [← h.1]
      exact List.mem_cons_self _ _
    | cons b ys =>
      simp only [List.cons_append, List.cons.injEq] at h
      obtain ⟨hab, hrest⟩ := h
      have hx' : ',' ∉ xs := fun hm => hx (List.mem_cons_of_mem _ hm)
      have hy' : ',' ∉ ys := fun hm => hy (List.mem_cons_of_mem _ hm)
      obtain ⟨h1, h2⟩ := ih ys hx' hy' hrest
      exact ⟨by rw [hab, h1], h2⟩

/-- A comma-free string never equals a string containing a comma. -/
theorem commaFree_ne_append (x y v : List Char) (hx : ',' ∉ x) :
    x ≠ y ++ ',' :: v := by
  intro h
  refine hx ?_
  rw [h]
  exact List.mem_append_right y (List.mem_cons_self _ _)

/-- For nonempty records of comma-free fields, the raw row bytes determine
the record (splitting on the delimiter recovers the fields). -/
theorem rawRowBytes_inj (r1 : Row) :
    ∀ r2 : Row, (∀ f ∈ r1, ',' ∉ f) → (∀ f ∈ r2, ',' ∉ f) →
      r1 ≠ [] → r2 ≠ [] → rawRowBytes r1 = rawRowBytes r2 → r1 = r2 := by
  induction r1 with
  | nil => intro r2 _ _ hne; exact absurd rfl hne
  | cons f1 rest1 ih =>
    intro r2 h1 h2 _ hne2 heq
    cases r2 with
    | nil => exact absurd rfl hne2
    | cons g1 rest2 =>
      cases rest1 with
      | nil =>
        cases rest2 with
        | nil =>
          simp only [rawRowBytes] at heq
          rw [heq]
        | cons g2 gs =>
          exfalso
          simp only [rawRowBytes] at heq
          exact commaFree_ne_append f1 g1 _ (h1 f1 (List.mem_cons_self _ _)) heq
      | cons f2 fs =>
        cases rest2 with
        | nil =>
          exfalso
          simp only [rawRowBytes] at heq
          exact commaFree_ne_append g1 f1 _ (h2 g1 (List.mem_cons_self _ _)) heq.symm
        | cons g2 gs =>
          simp only [rawRowBytes] at heq
          obtain ⟨hfg, hrest⟩ := commaFree_append_inj f1 _ _ g1
            (h1 f1 (List.mem_cons_self _ _)) (h2 g1 (List.mem_cons_self _ _)) heq
          have htail := ih (g2 :: gs)
            (fun f hf => h1 f (List.mem_cons_of_mem _ hf))
            (fun f hf => h2 f (List.mem_cons_of_mem _ hf))
            (by simp) (by simp) hrest
          rw [hfg, htail]

/-- C9 (amended): the fingerprint is a 64-bit hash of the concatenation
of the record's parsed fields (`as_slice`), not of the raw row bytes; it
is still a function of the raw row bytes — identical raw bytes (for
records of delimiter-free fields) give identical fingerprints, because
the raw bytes determine the fields — but distinct raw rows whose field
concatenations coincide share a fingerprint by construction. -/
theorem fingerprint_function_of_raw_bytes (r1 r2 : Row)
    (h1 : ∀ f ∈ r1, ',' ∉ f) (h2 : ∀ f ∈ r2, ',' ∉ f)
    (hne1 : r1 ≠ []) (hne2 : r2 ≠ [])
    (hraw : rawRowBytes r1 = rawRowBytes r2) :
    hashBytes (asSlice r1) = hashBytes (asSlice r2) := by
  rw [rawRowBytes_inj r1 r2 h1 h2 hne1 hne2 hraw]

/-- Witness: `fingerprint_function_of_raw_bytes` at a concrete record. -/
theorem fingerprint_function_of_raw_bytes_witness :
    hashBytes (asSlice ["a".data, "bc".data]) =
      hashBytes (asSlice ["a".data, "bc".data]) :=
  fingerprint_function_of_raw_bytes ["a".data, "bc".data] ["a".data, "bc".data]
    (by decide) (by decide) (by decide) (by decide) rfl

/-! ## C6: determinism of the output order -/

/-- `fldCmp` returns `eq` exactly on equal strings. -/
theorem fldCmp_eq_iff : ∀ x y : Fld, fldCmp x y = .eq ↔ x = y
  | [], [] => by simp [fldCmp]
  | [], _ :: _ => by simp [fldCmp]
  | _ :: _, [] => by simp [fldCmp]
  | a :: x, b :: y => by
    simp only [fldCmp]
    by_cases h1 : a < b
    · simp [h1, ne_of_lt h1]
    · by_cases h2 : b < a
      · simp [h1, h2, (ne_of_lt h2).symm]
      · have hab : a = b := le_antisymm (not_lt.mp h2) (not_lt.mp h1)
        simp [h1, h2, hab, fldCmp_eq_iff x y]

/-- Swapping the arguments of `fldCmp` swaps the ordering. -/
theorem fldCmp_swap : ∀ x y : Fld, (fldCmp x y).swap = fldCmp y x
  | [], [] => rfl
  | [], _ :: _ => rfl
  | _ :: _, [] => rfl
  | a :: x, b :: y => by
    simp only [fldCmp]
    by_cases h1 : a < b
    · have h2 : ¬b < a := lt_asymm h1
      simp [h1, h2, Ordering.swap]
    · by_cases h2 : b < a
      · simp [h1, h2, Ordering.swap]
      · simp [h1, h2, fldCmp_swap x y]

/-- `fldCmp` is transitive on strict inequality. -/
theorem fldCmp_trans_lt : ∀ x y z : Fld,
    fldCmp x y = .lt → fldCmp y z = .lt → fldCmp x z = .lt
  | [], [], _ => by simp [fldCmp]
  | [], _ :: _, [] => by intro _ h2; simp [fldCmp] at h2
  | [], _ :: _, _ :: _ => by intro _ _; rfl
  | _ :: _, [], _ => by intro h1; simp [fldCmp] at h1
  | _ :: _, _ :: _, [] => by intro _ h2; simp [fldCmp] at h2
  | a :: x, b :: y, c :: z => by
    intro h1 h2
    simp only [fldCmp] at h1 h2 ⊢
    by_cases hab : a < b
    · by_cases hbc : b < c
      · simp [lt_trans hab hbc]
      · by_cases hcb : c < b
        · simp [hbc, hcb] at h2
        · have hbceq : b = c := le_antisymm (not_lt.mp hcb) (not_lt.mp hbc)
          have hac : a < c := hbceq ▸ hab
          simp [hac]
    · by_cases hba : b < a
      · simp [hab, hba] at h1
      · have hab' : a = b := le_antisymm (not_lt.mp hba) (not_lt.mp hab)
        subst hab'
        simp only [lt_irrefl, if_false] at h1
        by_cases hac : a < c
        · simp [hac]
        · by_cases hca : c < a
          · simp [hac, hca] at h2
          · have hac' : a = c := le_antisymm (not_lt.mp hca) (not_lt.mp hac)
            subst hac'
            simp only [lt_irrefl, if_false] at h2 ⊢
            exact fldCmp_trans_lt x y z h1 h2

/-- `≤` (not-`gt`) is transitive for `fldCmp`. -/
theorem fldCmp_le_trans (x y z : Fld) (h1 : fldCmp x y ≠ .gt)
    (h2 : fldCmp y z ≠ .gt) : fldCmp x z ≠ .gt := by
  cases hxy : fldCmp x y with
  | gt => exact absurd hxy h1
  | eq =>
    rw [(fldCmp_eq_iff x y).mp hxy]
    exact h2
  | lt =>
    cases hyz : fldCmp y z with
    | gt => exact absurd hyz h2
    | eq =>
      rw [← (fldCmp_eq_iff y z).mp hyz, hxy]
      simp
    | lt =>
      rw [fldCmp_trans_lt x y z hxy hyz]
      simp

/-- Swapping the arguments of the sort-key comparison swaps the ordering. -/
theorem saleKeyCmp_swap (s t : Sale) : (saleKeyCmp s t).swap = saleKeyCmp t s := by
  unfold saleKeyCmp
  rw [← fldCmp_swap s.kind t.kind]
  cases fldCmp s.kind t.kind with
  | lt => rfl
  | gt => rfl
  | eq => exact fldCmp_swap s.description t.description

/-- The sort-key comparison returns `eq` exactly on equal keys. -/
theorem saleKeyCmp_eq_iff (s t : Sale) :
    saleKeyCmp s t = .eq ↔ salePair s = salePair t := by
  unfold saleKeyCmp salePair
  cases hk : fldCmp s.kind t.kind with
  | lt =>
    have hne : s.kind ≠ t.kind := fun he => by
      rw [(fldCmp_eq_iff _ _).mpr he] at hk
      exact Ordering.noConfusion hk
    simp [Prod.ext_iff, hne]
  | gt =>
    have hne : s.kind ≠ t.kind := fun he => by
      rw [(fldCmp_eq_iff _ _).mpr he] at hk
      exact Ordering.noConfusion hk
    simp [Prod.ext_iff, hne]
  | eq =>
    have hkind : s.kind = t.kind := (fldCmp_eq_iff _ _).mp hk
    simp [Prod.ext_iff, hkind, fldCmp_eq_iff]

/-- The sort relation is total. -/
theorem saleLEP_total (s t : Sale) : saleLEP s t ∨ saleLEP t s := by
  unfold saleLEP
  by_cases h : saleKeyCmp s t = .gt
  · right
    intro h2
    have hs := saleKeyCmp_swap s t
    rw [h, h2] at hs
    exact Ordering.noConfusion hs
  · left
    exact h

/-- The sort relation is transitive. -/
theorem saleLEP_trans (s t u : Sale) (h1 : saleLEP s t) (h2 : saleLEP t u) :
    saleLEP s u := by
  unfold saleLEP saleKeyCmp at h1 h2 ⊢
  cases hk1 : fldCmp s.kind t.kind with
  | gt => rw [hk1] at h1; exact absurd rfl h1
  | lt =>
    rw [hk1] at h1
    cases hk2 : fldCmp t.kind u.kind with
    | gt => rw [hk2] at h2; exact absurd rfl h2
    | lt =>
      rw [fldCmp_trans_lt _ _ _ hk1 hk2]
      simp
    | eq =>
      have he : t.kind = u.kind := (fldCmp_eq_iff _ _).mp hk2
      rw [← he, hk1]
      simp
  | eq =>
    have he : s.kind = t.kind := (fldCmp_eq_iff _ _).mp hk1
    rw [hk1] at h1
    cases hk2 : fldCmp t.kind u.kind with
    | gt => rw [hk2] at h2; exact absurd rfl h2
    | lt =>
      rw [he, hk2]
      simp
    | eq =>
      rw [hk2] at h2
      have he2 : t.kind = u.kind := (fldCmp_eq_iff _ _).mp hk2
      rw [he, he2, (fldCmp_eq_iff u.kind u.kind).mpr rfl]
      exact fldCmp_le_trans _ t.description _ h1 h2

instance : IsTotal Sale saleLEP := ⟨saleLEP_total⟩

instance : IsTrans Sale saleLEP := ⟨saleLEP_trans⟩

instance : IsAntisymm Sale (fun s t => saleKeyCmp s t = .lt) where
  antisymm a b h1 h2 := by
    have h := saleKeyCmp_swap a b
    rw [h1, h2] at h
    exact absurd h (by decide)

/-- On a buffer whose (kind, description) keys are pairwise distinct, the
final sort is sorted by the STRICT key order. -/
theorem sortSales_sorted_strict (l : List Sale)
    (hkeys : (l.map salePair).Nodup) :
    (sortSales l).Pairwise (fun s t => saleKeyCmp s t = .lt) := by
  have hs : (sortSales l).Pairwise saleLEP := List.sorted_insertionSort saleLEP l
  have hnd : (sortSales l).Pairwise (fun s t => salePair s ≠ salePair t) := by
    have hmap : ((sortSales l).map salePair).Nodup :=
      (((List.perm_insertionSort saleLEP l).map salePair).nodup_iff).mpr hkeys
    exact List.pairwise_map.mp hmap
  refine (hs.and hnd).imp ?_
  rintro a b ⟨hle, hne⟩
  cases hab : saleKeyCmp a b with
  | lt => rfl
  | gt => exact absurd hab hle
  | eq => exact absurd ((saleKeyCmp_eq_iff a b).mp hab) hne

/-- C6 (amended): the final sort orders the buffer by (kind, description)
ONLY — no natural-key tie-break — so the output sequence is independent
of the maps' iteration order exactly when no two output rows share a
(kind, description) key: buffers that are permutations of one another
with pairwise-distinct keys sort identically. -/
theorem sortSales_deterministic_of_nodup_keys (b1 b2 : List Sale)
    (hperm : b1.Perm b2) (hkeys : (b1.map salePair).Nodup) :
    sortSales b1 = sortSales b2 := by
  have hkeys2 : (b2.map salePair).Nodup := ((hperm.map salePair).nodup_iff).mp hkeys
  have hp : (sortSales b1).Perm (sortSales b2) :=
    ((List.perm_insertionSort saleLEP b1).trans hperm).trans
      (List.perm_insertionSort saleLEP b2).symm
  exact List.eq_of_perm_of_sorted hp
    (sortSales_sorted_strict b1 hkeys) (sortSales_sorted_strict b2 hkeys2)

/-- Witness: `sortSales_deterministic_of_nodup_keys` at two concrete
permuted buffers with distinct keys. -/
theorem sortSales_deterministic_witness :
    sortSales [saleC, saleD] = sortSales [saleD, saleC] :=
  sortSales_deterministic_of_nodup_keys [saleC, saleD] [saleD, saleC]
    (List.Perm.swap saleD saleC []) (by decide)

/-- C6 (counterexample): two runs over the SAME multiset of (pre-seen)
rows presented in different orders produce DIFFERENT finalized output
sequences: the two rows tie on (kind, description) but differ in SKU, the
comparator of `sort_unstable_by_key` looks only at (kind, description),
and ties keep the aggregation map's iteration order, which follows the
presentation order — so hash-map order leaks into the output. -/
theorem output_order_depends_on_input_order_counterexample :
    [orderRow1, orderRow2].Perm [orderRow2, orderRow1] ∧
    (Report.parse (preambleRows ++ headerRow :: [orderRow1, orderRow2])
        (storeSeeding [orderRow1, orderRow2]) none true).saved ≠
      (Report.parse (preambleRows ++ headerRow :: [orderRow2, orderRow1])
        (storeSeeding [orderRow1, orderRow2]) none true).saved := by
  constructor
  · exact List.Perm.swap orderRow2 orderRow1 []
  · decide
